import Mathlib

/-!
Verification development for the clinic discrete-event simulation in
`src/model.py` (a SimPy model adapted from the HSMA "little book of DES").

The Python model is shallowly embedded as an executable event loop:
* simulated time is `ℚ` (floats are modelled exactly);
* the SimPy event queue is a list kept sorted by the lexicographic key
  (time, priority, insertion sequence number) — SimPy pops the least key;
  process-initialisation events have priority 0 (SimPy `URGENT`), timeouts
  and resource-grant triggers have priority 1 (SimPy `NORMAL`);
* the two seeded `numpy` exponential streams are abstracted as ambient
  sample sequences `ℕ → ℚ` (draw index ↦ unit-mean draw), scaled by the
  configured mean exactly as `rand.exponential(mean)` scales a unit draw;
* `env.run(until=T)` processes exactly the events with time `< T` (SimPy
  schedules the stop event at `T` with `URGENT` priority, so events at
  time `≥ T` are never executed).
-/

namespace ClinicSim

/-- The `Defaults` parameter dataclass (src/model.py lines 13-30), with the
default values given there.  It performs no validation of any field. -/
structure Defaults where
  patient_inter : ℚ := 5
  mean_n_consult_time : ℚ := 35
  number_of_nurses : ℕ := 9
  sim_duration : ℚ := 600
  warm_up_period : ℚ := 0
  number_of_runs : ℕ := 5
  audit_interval : ℚ := 5
  scenario_name : ℤ := 0
deriving DecidableEq

/-- The `Patient` class (src/model.py lines 33-38): an id and a queue time
initialised to `0` in `__init__`. -/
structure Patient where
  id : ℕ
  q_time_nurse : ℚ := 0
deriving DecidableEq

/-- One row of `Model.results_list` (src/model.py lines 111-115). -/
structure PatientRec where
  patient_id : ℕ
  q_time_nurse : ℚ
  time_with_nurse : ℚ
deriving DecidableEq

/-- One row of `Model.utilisation_audit` (src/model.py lines 144-150);
`resource_name` is the constant string `'nurse'` and is omitted. -/
structure AuditRec where
  simulation_time : ℚ
  number_utilised : ℕ
  number_available : ℕ
  queue_length : ℕ
deriving DecidableEq

/-- Ghost record of one service start (the resumption of `attend_clinic`
after its nurse request is granted): patient id, the time the request was
issued (`start_q_nurse`), the service start time (`end_q_nurse`) and the
sampled consultation time.  Instrumentation only — it never feeds back
into the behaviour of the model. -/
structure Served where
  pid : ℕ
  arrival : ℚ
  start : ℚ
  sample : ℚ
deriving DecidableEq

/-- The resumable continuations of the three SimPy process kinds of the
model, at each of their suspension points. -/
inductive Proc where
  /-- `generator_patient_arrivals` waking from its inter-arrival timeout
  (src/model.py lines 82-92). -/
  | genArrival : Proc
  /-- a freshly spawned `attend_clinic` process running up to `yield req`
  (src/model.py lines 96-99): it requests the nurse at the current time. -/
  | startPatient : Patient → Proc
  /-- `attend_clinic` resuming after its request was granted; the payload
  is the patient and its `start_q_nurse` timestamp (lines 101-124). -/
  | resumePatient : Patient → ℚ → Proc
  /-- `attend_clinic` resuming after the consultation timeout: the `with`
  block exits and the nurse is released (lines 98, 124). -/
  | endService : Proc
  /-- `interval_audit_utilisation` waking from its interval timeout
  (src/model.py lines 139-152). -/
  | auditTick : Proc
deriving DecidableEq

/-- A scheduled SimPy event: its time, priority (0 = `URGENT` for process
initialisation, 1 = `NORMAL` for timeouts and grant triggers), unique
insertion sequence number, and the continuation to resume. -/
structure Ev where
  time : ℚ
  prio : ℕ
  seq : ℕ
  proc : Proc
deriving DecidableEq

/-- Insert an event into the queue, keeping it sorted by the lexicographic
key (time, prio, seq) — the order in which SimPy's heap pops events. -/
def pushEv (e : Ev) : List Ev → List Ev
  | [] => [e]
  | x :: xs =>
    if e.time < x.time ∨ (e.time = x.time ∧
        (e.prio < x.prio ∨ (e.prio = x.prio ∧ e.seq < x.seq))) then
      e :: x :: xs
    else
      x :: pushEv e xs

/-- The mutable state of one `Model` mid-run: the SimPy environment's
event queue plus the model's own fields (src/model.py lines 52-80),
together with two ghost logs (`arrivalsLog`, `servedLog`) used only to
state specifications. -/
structure SimState where
  /-- `self.nurse.count`: number of users currently granted the resource. -/
  users : ℕ
  /-- `self.nurse.queue`: pending requests in FIFO order, each with the
  patient and its `start_q_nurse` timestamp. -/
  queue : List (Patient × ℚ)
  /-- `self.patient_counter`. -/
  patient_counter : ℕ
  /-- number of draws taken so far from `patient_inter_arrival_dist`. -/
  arrIdx : ℕ
  /-- number of draws taken so far from `nurse_consult_time_dist`. -/
  srvIdx : ℕ
  /-- `self.results_list`. -/
  results_list : List PatientRec
  /-- `self.nurse_time_used`. -/
  nurse_time_used : ℚ
  /-- `self.utilisation_audit`. -/
  utilisation_audit : List AuditRec
  /-- pending events, sorted by (time, prio, seq). -/
  events : List Ev
  /-- next insertion sequence number. -/
  seq : ℕ
  /-- ghost: every patient created by the generator, with its creation
  (= arrival) time. -/
  arrivalsLog : List (ℕ × ℚ)
  /-- ghost: every service start that happened. -/
  servedLog : List Served
deriving DecidableEq

/-- Schedule a new event at the given time and priority. -/
def schedule (time : ℚ) (prio : ℕ) (pr : Proc) (st : SimState) : SimState :=
  { st with events := pushEv ⟨time, prio, st.seq, pr⟩ st.events, seq := st.seq + 1 }

/-- `until` value of `env.run` in `Model.run` (src/model.py line 165):
`sim_duration + warm_up_period`. -/
def horizon (p : Defaults) : ℚ :=
  p.sim_duration + p.warm_up_period

/-- Execute one popped event: the straight-line Python between two
suspension points of the resumed process (src/model.py lines 82-152).
`aSeq`/`svSeq` are the unit-mean draws of the two seeded streams. -/
def stepEv (p : Defaults) (aSeq svSeq : ℕ → ℚ) (st : SimState) (e : Ev) : SimState :=
  match e.proc with
  | Proc.genArrival =>
      -- lines 84-92: increment the counter, create the patient, spawn its
      -- attend_clinic process (URGENT init at the current time), then
      -- sample the next inter-arrival gap and sleep for it.
      let pid := st.patient_counter + 1
      let inter := p.patient_inter * aSeq st.arrIdx
      let st1 := { st with patient_counter := pid,
                           arrIdx := st.arrIdx + 1,
                           arrivalsLog := st.arrivalsLog ++ [(pid, e.time)] }
      let st2 := schedule e.time 0 (Proc.startPatient ⟨pid, 0⟩) st1
      schedule (e.time + inter) 1 Proc.genArrival st2
  | Proc.startPatient pat =>
      -- lines 97-99: record start_q_nurse and request the nurse.  SimPy
      -- grants immediately when count < capacity (the count rises at the
      -- grant and the process resumes via a NORMAL event at amount time),
      -- otherwise the request joins the FIFO queue.
      if st.users < p.number_of_nurses then
        schedule e.time 1 (Proc.resumePatient pat e.time) { st with users := st.users + 1 }
      else
        { st with queue := st.queue ++ [(pat, e.time)] }
  | Proc.resumePatient pat startQ =>
      -- lines 101-124: compute the queue time, sample the consultation
      -- time, record results only if the warm-up period has passed, and
      -- sleep for the full sampled consultation time.
      let sampled := p.mean_n_consult_time * svSeq st.srvIdx
      let st1 := { st with srvIdx := st.srvIdx + 1,
                           servedLog := st.servedLog ++ [⟨pat.id, startQ, e.time, sampled⟩] }
      let st2 :=
        if p.warm_up_period ≤ e.time then
          { st1 with
              results_list := st1.results_list ++
                [⟨pat.id, e.time - startQ, sampled⟩],
              nurse_time_used := st1.nurse_time_used +
                min sampled (p.warm_up_period + p.sim_duration - e.time) }
        else st1
      schedule (e.time + sampled) 1 Proc.endService st2
  | Proc.endService =>
      -- line 98 (`with` block exit): release the nurse; SimPy then grants
      -- the longest-waiting queued request at the same time, if any.
      match st.queue with
      | [] => { st with users := st.users - 1 }
      | (pat, arr) :: restQ =>
          schedule e.time 1 (Proc.resumePatient pat arr)
            { st with users := st.users - 1 + 1, queue := restQ }
  | Proc.auditTick =>
      -- lines 139-152: record a row only if the warm-up period has
      -- passed, then sleep for the audit interval.
      let st1 :=
        if p.warm_up_period ≤ e.time then
          { st with utilisation_audit := st.utilisation_audit ++
              [⟨e.time, st.users, p.number_of_nurses, st.queue.length⟩] }
        else st
      schedule (e.time + p.audit_interval) 1 Proc.auditTick st1

/-- The state right after `Model.__init__` and the two `env.process` calls
of `Model.run` (src/model.py lines 52-80 and 154-162): the generator is
started first, the auditor second, both as URGENT initialisations at time
0. -/
def initState (_p : Defaults) : SimState :=
  { users := 0, queue := [], patient_counter := 0, arrIdx := 0, srvIdx := 0,
    results_list := [], nurse_time_used := 0, utilisation_audit := [],
    events := [⟨0, 0, 0, Proc.genArrival⟩, ⟨0, 0, 1, Proc.auditTick⟩], seq := 2,
    arrivalsLog := [], servedLog := [] }

/-- The SimPy main loop of `env.run(until=horizon)`: repeatedly pop the
least event and execute it, stopping at the first event whose time has
reached the horizon (SimPy's stop event at the horizon is URGENT, so no
model event at time `≥ horizon` is ever executed).  `fuel` bounds the
number of iterations; `none` means the fuel ran out before the run
finished, so every `some` result is a completed run. -/
def simLoop (p : Defaults) (aSeq svSeq : ℕ → ℚ) : ℕ → SimState → Option SimState
  | 0, _ => none
  | Nat.succ fuel, st =>
    match st.events with
    | [] => some st
    | e :: rest =>
      if e.time < horizon p then
        simLoop p aSeq svSeq fuel (stepEv p aSeq svSeq { st with events := rest } e)
      else
        some st

/-- `Model(param, run_number).run()` (src/model.py lines 154-165), for the
given unit-mean draw sequences of the two streams. -/
def modelRun (p : Defaults) (aSeq svSeq : ℕ → ℚ) (fuel : ℕ) : Option SimState :=
  simLoop p aSeq svSeq fuel (initState p)

/-- `Model.__init__` seeds its two streams from
`np.random.SeedSequence(entropy=run_number).spawn(2)` (src/model.py lines
71-80): the spawned seeds depend on `run_number` alone.  `spawnSeeds`
abstracts that derivation and `rng seed i` abstracts the `i`-th unit-mean
exponential draw of a `numpy` generator built from `seed` (a pure
function of the seed — `numpy` guarantees bit-for-bit reproducibility).
`ambientEntropy` stands for the operating-system entropy that
`default_rng` would fall back to had no seed been passed; the source
always passes an explicit seed, so it is never consulted. -/
def modelOfRun (rng : ℕ → ℕ → ℚ) (spawnSeeds : ℕ → ℕ × ℕ) (p : Defaults)
    (run_number : ℕ) (ambientEntropy : ℕ) (fuel : ℕ) : Option SimState :=
  modelRun p (fun i => rng (spawnSeeds run_number).1 i)
    (fun i => rng (spawnSeeds run_number).2 i) fuel

/-- The Python exceptions the embedded code can raise. -/
inductive PyErr where
  | typeError : PyErr
  | valueError : PyErr
  | attributeError : PyErr
deriving DecidableEq

/-- A constructed `Model` object, as far as its parameters are concerned
(src/model.py lines 52-80). -/
structure Model where
  param : Defaults
  run_number : ℕ
deriving DecidableEq

/-- The Python call `Model(...)`.  `param` is a required positional
parameter with no default (src/model.py line 54), so a call that omits it
(`none`) raises `TypeError` before the body runs.  When `param` is
supplied, `__init__` stores it without validating any field: no value
check appears anywhere in lines 52-80. -/
def modelCall (param : Option Defaults) (run_number : ℕ) : Except PyErr Model :=
  match param with
  | none => Except.error PyErr.typeError
  | some p => Except.ok ⟨p, run_number⟩

/-- `Defaults` is a plain dataclass: it defines no `__slots__` and no
custom `__setattr__` (src/model.py lines 13-30), so Python object
semantics bind any new attribute name silently.  The dynamic attribute
map is modelled alongside the declared fields. -/
structure DynDefaults where
  core : Defaults
  extra : List (String × ℤ)
deriving DecidableEq

/-- Setting an attribute name that is not a declared field of `Defaults`,
e.g. `param.new_entry = 3`: with no `__slots__` or `__setattr__` guard the
assignment succeeds and silently adds the attribute. -/
def setattrNew (o : DynDefaults) (nm : String) (v : ℤ) : Except PyErr DynDefaults :=
  Except.ok { o with extra := o.extra ++ [(nm, v)] }

/-- A patient-level row tagged with its run (src/model.py lines 188-189). -/
structure TaggedPatientRec where
  row : PatientRec
  run : ℕ
deriving DecidableEq

/-- An interval-audit row tagged with its run and `perc_utilisation`
(src/model.py lines 203-208). -/
structure TaggedAuditRec where
  row : AuditRec
  run : ℕ
  perc_utilisation : ℚ
deriving DecidableEq

/-- The dictionary returned by `Trial.run_single` (src/model.py lines
187-213): patient-level table, run-level summary and interval-audit
table.  `mean_q_time_nurse` is the mean of the recorded queue times
(`NaN`, not modelled, when no patient was recorded). -/
structure RunResult where
  patient : List TaggedPatientRec
  run_number : ℕ
  scenario : ℤ
  arrivals : ℕ
  average_nurse_utilisation : ℚ
  interval_audit : List TaggedAuditRec
deriving DecidableEq

/-- Packaging of a finished model state into the result bundle of
`Trial.run_single` (src/model.py lines 187-213). -/
def mkRunResult (p : Defaults) (run : ℕ) (st : SimState) : RunResult :=
  { patient := st.results_list.map (fun r => ⟨r, run⟩),
    run_number := run,
    scenario := p.scenario_name,
    arrivals := st.results_list.length,
    average_nurse_utilisation :=
      st.nurse_time_used / ((p.number_of_nurses : ℚ) * p.sim_duration),
    interval_audit := st.utilisation_audit.map
      (fun r => ⟨r, run, (r.number_utilised : ℚ) / (r.number_available : ℚ)⟩) }

/-- The `Trial` class (src/model.py lines 168-179): it stores the
parameters it was constructed with. -/
structure Trial where
  param : Defaults
deriving DecidableEq

/-- `Trial.run_single` (src/model.py lines 181-213).  Line 184 reads
`my_model = Model(run_number=run)`: the required positional argument
`param` is omitted, so the `Model` call is made with `none`.  The
remainder of the method builds the result bundle from the finished model
(`none` inside the `ok` means the fuel ran out). -/
def Trial.run_single (t : Trial) (aSeq svSeq : ℕ → ℚ) (fuel run : ℕ) :
    Except PyErr (Option RunResult) :=
  match modelCall none run with
  | Except.error err => Except.error err
  | Except.ok m =>
      Except.ok ((modelRun m.param aSeq svSeq fuel).map (mkRunResult t.param run))

/-- Modelled from the spec: the `MonitoredResource` class is part of this
repository's `simulation` package, which is not under `src/` — only its
tests (`test_monitoredresource_cleanup`) reference it.  Following spec
§3/§4.2: capacity, current in-use count, FIFO wait queue, last-update
timestamp and the running integrals `area_busy` (busy count over time)
and `area_queue` (queue length over time). -/
structure MonitoredResource where
  capacity : ℕ
  in_use : ℕ
  queue : List ℕ
  last_update : ℚ
  area_busy : ℚ
  area_queue : ℚ
deriving DecidableEq

/-- Modelled from the spec (§3, §4.2): before any state change, the
elapsed interval since `last_update` is accumulated into both integrals
using the state that held during that interval, and `last_update` moves
to `now`. -/
def MonitoredResource.accumulate (r : MonitoredResource) (now : ℚ) : MonitoredResource :=
  { r with
      area_busy := r.area_busy + (r.in_use : ℚ) * (now - r.last_update),
      area_queue := r.area_queue + (r.queue.length : ℚ) * (now - r.last_update),
      last_update := now }

/-- Modelled from the spec (§4.2 `request()`): accumulate, then grant
immediately when in-use is below capacity, otherwise enqueue FIFO. -/
def MonitoredResource.request (r : MonitoredResource) (now : ℚ) (id : ℕ) :
    MonitoredResource :=
  let r1 := r.accumulate now
  if r1.in_use < r1.capacity then
    { r1 with in_use := r1.in_use + 1 }
  else
    { r1 with queue := r1.queue ++ [id] }

/-- Modelled from the spec (§4.2 `release()`): accumulate, decrement
in-use, then grant the longest-waiting queued request if any. -/
def MonitoredResource.release (r : MonitoredResource) (now : ℚ) : MonitoredResource :=
  let r1 := r.accumulate now
  match r1.queue with
  | [] => { r1 with in_use := r1.in_use - 1 }
  | _ :: restQ => { r1 with in_use := r1.in_use - 1 + 1, queue := restQ }

/-- Modelled from the spec (§4.2 `flush_tail(now)`): integrate the final
stretch from the last state change to the end of the run using the
current state. -/
def MonitoredResource.flush_tail (r : MonitoredResource) (now : ℚ) : MonitoredResource :=
  r.accumulate now

/-- Modelled from the spec (§8 tail-flush example): capacity 1; tasks A,
B and C all request at time 0; A occupies 0-5, so the resource is
released at time 5 and B is granted; the run ends at 12, where
`flush_tail` is called. -/
def tailFlushScenario : MonitoredResource :=
  let r0 : MonitoredResource :=
    { capacity := 1, in_use := 0, queue := [], last_update := 0,
      area_busy := 0, area_queue := 0 }
  let r1 := r0.request 0 1
  let r2 := r1.request 0 2
  let r3 := r2.request 0 3
  let r4 := r3.release 5
  r4.flush_tail 12

/-- Specification-side formula: which service starts get recorded — the
warm-up period has elapsed at the moment the consultation starts. -/
def servedRecorded (p : Defaults) (en : Served) : Bool :=
  decide (p.warm_up_period ≤ en.start)

/-- Specification-side formula for the patient-level table: one row per
service start at or after the end of warm-up, carrying the queue time and
the sampled consultation time. -/
def recsOfServed (p : Defaults) (l : List Served) : List PatientRec :=
  (l.filter (servedRecorded p)).map
    (fun en => ⟨en.pid, en.start - en.arrival, en.sample⟩)

/-- Specification-side formula of claim C7: total nurse busy time is the
sum, over recorded patients, of the sampled consultation time clamped to
the remaining run time at service start. -/
def specNurseTime (p : Defaults) (l : List Served) : ℚ :=
  ((l.filter (servedRecorded p)).map
    (fun en => min en.sample (p.warm_up_period + p.sim_duration - en.start))).sum

/-- The simulation times of the recorded interval-audit rows, in
recording order. -/
def auditTimes (st : SimState) : List ℚ :=
  st.utilisation_audit.map (fun r => r.simulation_time)

/-- A degenerate draw sequence: every unit-mean draw is 1, so every
sample equals the configured mean. -/
def oneSeq : ℕ → ℚ :=
  fun _ => 1

/-- Saturation scenario for claim C2: one nurse, arrivals every 1 time
unit, consultations of 20, no warm-up, horizon 3. -/
def pSat : Defaults :=
  { patient_inter := 1, mean_n_consult_time := 20, number_of_nurses := 1,
    sim_duration := 3, warm_up_period := 0, audit_interval := 5 }

/-- Warm-up scenario for claim C3: one nurse, arrivals every 1 time unit,
consultations of 6, warm-up 5, horizon 15. -/
def pWarm : Defaults :=
  { patient_inter := 1, mean_n_consult_time := 6, number_of_nurses := 1,
    sim_duration := 10, warm_up_period := 5, audit_interval := 5 }

/-- Audit scenario for claim C4: warm-up 3 is not a multiple of the audit
interval 2; a single early arrival, horizon 13. -/
def pAudit : Defaults :=
  { patient_inter := 100, mean_n_consult_time := 1, number_of_nurses := 1,
    sim_duration := 10, warm_up_period := 3, audit_interval := 2 }

/-- Audit scenario with the warm-up (4) a multiple of the interval (2),
horizon 10; used to witness the amended claim C4. -/
def pAuditMul : Defaults :=
  { patient_inter := 100, mean_n_consult_time := 1, number_of_nurses := 1,
    sim_duration := 6, warm_up_period := 4, audit_interval := 2 }

/-- A dummy audit row, used as a fallback value when reading rows. -/
def dummyAudit : AuditRec :=
  ⟨0, 0, 0, 0⟩

/- ### Queue lemmas -/

theorem pushEv_perm (e : Ev) (l : List Ev) : (pushEv e l).Perm (e :: l) := by
  induction l with
  | nil => simp [pushEv]
  | cons x xs ih =>
      rw [pushEv]
      split
      · exact List.Perm.refl _
      · exact (ih.cons x).trans (List.Perm.swap e x xs)

theorem mem_pushEv {a e : Ev} {l : List Ev} : a ∈ pushEv e l ↔ a = e ∨ a ∈ l := by
  rw [(pushEv_perm e l).mem_iff, List.mem_cons]

theorem countP_pushEv (q : Ev → Bool) (e : Ev) (l : List Ev) :
    (pushEv e l).countP q = (if q e then 1 else 0) + l.countP q := by
  rw [(pushEv_perm e l).countP_eq, List.countP_cons]
  rcases h : q e <;> simp [h, Nat.add_comm]

/-- The event queue stays sorted by time. -/
def timeSorted (l : List Ev) : Prop :=
  l.Pairwise (fun a b => a.time ≤ b.time)

theorem timeSorted_pushEv {e : Ev} {l : List Ev} (h : timeSorted l) :
    timeSorted (pushEv e l) := by
  induction l with
  | nil => simp [pushEv, timeSorted]
  | cons x xs ih =>
      rw [timeSorted, List.pairwise_cons] at h
      rw [pushEv]
      split
      · rename_i hc
        have hex : e.time ≤ x.time := by
          rcases hc with h1 | ⟨h1, _⟩
          · exact le_of_lt h1
          · exact le_of_eq h1
        refine List.Pairwise.cons ?_ (List.Pairwise.cons h.1 h.2)
        intro b hb
        rcases List.mem_cons.mp hb with rfl | hb
        · exact hex
        · exact hex.trans (h.1 b hb)
      · rename_i hc
        have hxe : x.time ≤ e.time := by
          by_contra hlt
          exact hc (Or.inl (lt_of_not_le hlt))
        refine List.Pairwise.cons ?_ (ih h.2)
        intro b hb
        rcases mem_pushEv.mp hb with rfl | hb
        · exact hxe
        · exact h.1 b hb

/- ### Generic loop lemmas -/

theorem simLoop_induction (p : Defaults) (aSeq svSeq : ℕ → ℚ) (P : SimState → Prop)
    (hstep : ∀ (st : SimState) (e : Ev) (rest : List Ev),
      st.events = e :: rest → e.time < horizon p → P st →
      P (stepEv p aSeq svSeq { st with events := rest } e)) :
    ∀ (fuel : ℕ) (st st' : SimState),
      simLoop p aSeq svSeq fuel st = some st' → P st → P st' := by
  intro fuel
  induction fuel with
  | zero => intro st st' h; simp [simLoop] at h
  | succ n ih =>
      intro st st' h hP
      rw [simLoop] at h
      split at h
      · simp only [Option.some.injEq] at h
        exact h ▸ hP
      · rename_i e rest hev
        split at h
        · rename_i ht
          exact ih _ _ h (hstep st e rest hev ht hP)
        · simp only [Option.some.injEq] at h
          exact h ▸ hP

theorem simLoop_stop_shape (p : Defaults) (aSeq svSeq : ℕ → ℚ) :
    ∀ (fuel : ℕ) (st st' : SimState),
      simLoop p aSeq svSeq fuel st = some st' →
      st'.events = [] ∨
        ∃ e rest, st'.events = e :: rest ∧ horizon p ≤ e.time := by
  intro fuel
  induction fuel with
  | zero => intro st st' h; simp [simLoop] at h
  | succ n ih =>
      intro st st' h
      rw [simLoop] at h
      split at h
      · rename_i hev
        simp only [Option.some.injEq] at h
        exact Or.inl (h ▸ hev)
      · rename_i e rest hev
        split at h
        · exact ih _ _ h
        · rename_i ht
          simp only [Option.some.injEq] at h
          exact Or.inr ⟨e, rest, h ▸ hev, le_of_not_lt ht⟩

/-- Everything still pending at the end of a completed run lies at or
beyond the horizon. -/
theorem events_ge_horizon_of_final (p : Defaults) {st' : SimState}
    (hsorted : timeSorted st'.events)
    (hshape : st'.events = [] ∨
      ∃ e rest, st'.events = e :: rest ∧ horizon p ≤ e.time) :
    ∀ e ∈ st'.events, horizon p ≤ e.time := by
  intro f hf
  rcases hshape with hnil | ⟨e, rest, hev, he⟩
  · rw [hnil] at hf; simp at hf
  · rw [hev] at hf hsorted
    rw [timeSorted, List.pairwise_cons] at hsorted
    rcases List.mem_cons.mp hf with rfl | hf
    · exact he
    · exact he.trans (hsorted.1 f hf)

/- ### Preservation of event-queue sortedness -/

theorem stepEv_preserves_timeSorted (p : Defaults) (aSeq svSeq : ℕ → ℚ)
    (st : SimState) (e : Ev) (rest : List Ev)
    (hev : st.events = e :: rest) (h : timeSorted st.events) :
    timeSorted (stepEv p aSeq svSeq { st with events := rest } e).events := by
  rw [hev, timeSorted, List.pairwise_cons] at h
  have hrest : timeSorted rest := h.2
  cases hproc : e.proc with
  | genArrival =>
      simp only [stepEv, hproc, schedule]
      exact timeSorted_pushEv (timeSorted_pushEv hrest)
  | startPatient pat =>
      simp only [stepEv, hproc, schedule]
      split
      · exact timeSorted_pushEv hrest
      · exact hrest
  | resumePatient pat arr =>
      simp only [stepEv, hproc, schedule]
      split <;> exact timeSorted_pushEv hrest
  | endService =>
      simp only [stepEv, hproc, schedule]
      split
      · exact hrest
      · exact timeSorted_pushEv hrest
  | auditTick =>
      simp only [stepEv, hproc, schedule]
      split <;> exact timeSorted_pushEv hrest

/- ### Resource-count invariant -/

/-- Whether an event resumes `attend_clinic` after a grant. -/
def isResume (e : Ev) : Bool :=
  match e.proc with
  | Proc.resumePatient _ _ => true
  | _ => false

/-- Whether an event ends a consultation (releases the nurse). -/
def isEnd (e : Ev) : Bool :=
  match e.proc with
  | Proc.endService => true
  | _ => false

/-- Whether an event is an interval-audit wake-up. -/
def isTick (e : Ev) : Bool :=
  match e.proc with
  | Proc.auditTick => true
  | _ => false

/-- Resource invariant: the in-use count equals the number of granted
requests whose service is pending (either not yet resumed or not yet
released), never exceeds the capacity, and every recorded audit row has
its in-use count bounded by the recorded capacity. -/
def ResInv (p : Defaults) (st : SimState) : Prop :=
  st.users = st.events.countP isResume + st.events.countP isEnd ∧
  st.users ≤ p.number_of_nurses ∧
  ∀ r ∈ st.utilisation_audit,
    r.number_utilised ≤ r.number_available ∧
    r.number_available = p.number_of_nurses

theorem initState_ResInv (p : Defaults) : ResInv p (initState p) := by
  refine ⟨?_, ?_, ?_⟩ <;> simp [ResInv, initState, isResume, isEnd, List.countP_cons]

theorem stepEv_preserves_ResInv (p : Defaults) (aSeq svSeq : ℕ → ℚ)
    (st : SimState) (e : Ev) (rest : List Ev)
    (hev : st.events = e :: rest) (hP : ResInv p st) :
    ResInv p (stepEv p aSeq svSeq { st with events := rest } e) := by
  obtain ⟨hcount, hcap, haud⟩ := hP
  rw [hev, List.countP_cons, List.countP_cons] at hcount
  obtain ⟨t, pr, sq, proc⟩ := e
  simp only [ResInv]
  cases proc with
  | genArrival =>
      simp only [isResume, isEnd] at hcount
      simp at hcount
      dsimp only [stepEv, schedule]
      refine ⟨?_, hcap, haud⟩
      rw [countP_pushEv, countP_pushEv, countP_pushEv, countP_pushEv]
      simp [isResume, isEnd]
      omega
  | startPatient pat =>
      simp only [isResume, isEnd] at hcount
      simp at hcount
      dsimp only [stepEv]
      split
      · rename_i hlt
        dsimp only [schedule]
        refine ⟨?_, hlt, haud⟩
        rw [countP_pushEv, countP_pushEv]
        simp [isResume, isEnd]
        omega
      · exact ⟨hcount, hcap, haud⟩
  | resumePatient pat arr =>
      simp only [isResume, isEnd] at hcount
      simp at hcount
      dsimp only [stepEv]
      split
      · dsimp only [schedule]
        refine ⟨?_, hcap, haud⟩
        rw [countP_pushEv, countP_pushEv]
        simp [isResume, isEnd]
        omega
      · dsimp only [schedule]
        refine ⟨?_, hcap, haud⟩
        rw [countP_pushEv, countP_pushEv]
        simp [isResume, isEnd]
        omega
  | endService =>
      simp only [isResume, isEnd] at hcount
      simp at hcount
      have hone : 1 ≤ st.users := by omega
      dsimp only [stepEv]
      split
      · dsimp only
        refine ⟨?_, by omega, haud⟩
        omega
      · dsimp only [schedule]
        refine ⟨?_, by omega, haud⟩
        rw [countP_pushEv, countP_pushEv]
        simp [isResume, isEnd]
        omega
  | auditTick =>
      simp only [isResume, isEnd] at hcount
      simp at hcount
      dsimp only [stepEv]
      split
      · dsimp only [schedule]
        refine ⟨?_, hcap, ?_⟩
        · rw [countP_pushEv, countP_pushEv]
          simp [isResume, isEnd]
          omega
        · intro r hr
          rcases List.mem_append.mp hr with hr | hr
          · exact haud r hr
          · simp at hr
            subst hr
            exact ⟨hcap, rfl⟩
      · dsimp only [schedule]
        refine ⟨?_, hcap, haud⟩
        rw [countP_pushEv, countP_pushEv]
        simp [isResume, isEnd]
        omega

/- ### Audit-tick structure invariant -/

/-- Audit invariant: exactly one audit wake-up is pending; it sits at the
`m`-th multiple of the audit interval; every earlier multiple was reached
strictly before the horizon; and the recorded audit times are exactly the
earlier multiples that fell at or after the end of warm-up. -/
def tickTimes (p : Defaults) (m : ℕ) : List ℚ :=
  (List.range m).map (fun k : ℕ => (k : ℚ) * p.audit_interval)

def TickInv (p : Defaults) (m : ℕ) (st : SimState) : Prop :=
  st.events.countP isTick = 1 ∧
  (∀ f ∈ st.events, isTick f = true → f.time = (m : ℚ) * p.audit_interval) ∧
  (∀ k < m, (k : ℚ) * p.audit_interval < horizon p) ∧
  auditTimes st = (tickTimes p m).filter (fun tm => decide (p.warm_up_period ≤ tm))

theorem initState_TickInv (p : Defaults) : ∃ m, TickInv p m (initState p) := by
  refine ⟨0, ?_, ?_, ?_, ?_⟩
  · simp [initState, isTick, List.countP_cons]
  · intro f hf htick
    rcases List.mem_cons.mp hf with rfl | hf
    · simp [isTick] at htick
    · rcases List.mem_singleton.mp hf with rfl
      simp
  · intro k hk
    omega
  · simp [auditTimes, initState, tickTimes]

theorem stepEv_preserves_TickInv (p : Defaults) (aSeq svSeq : ℕ → ℚ)
    (st : SimState) (e : Ev) (rest : List Ev)
    (hev : st.events = e :: rest) (ht : e.time < horizon p)
    (hP : ∃ m, TickInv p m st) :
    ∃ m, TickInv p m (stepEv p aSeq svSeq { st with events := rest } e) := by
  obtain ⟨m, h1, h2, h3, h4⟩ := hP
  rw [hev, List.countP_cons] at h1
  obtain ⟨t, pr, sq, proc⟩ := e
  cases proc with
  | genArrival =>
      simp only [isTick] at h1
      simp at h1
      refine ⟨m, ?_, ?_, h3, ?_⟩
      · dsimp only [stepEv, schedule]
        rw [countP_pushEv, countP_pushEv]
        simpa [isTick] using h1
      · dsimp only [stepEv, schedule]
        intro f hf htick
        rcases mem_pushEv.mp hf with rfl | hf
        · simp [isTick] at htick
        · rcases mem_pushEv.mp hf with rfl | hf
          · simp [isTick] at htick
          · exact h2 f (by rw [hev]; exact List.mem_cons_of_mem _ hf) htick
      · simpa [auditTimes] using h4
  | startPatient pat =>
      simp only [isTick] at h1
      simp at h1
      dsimp only [stepEv]
      split
      · refine ⟨m, ?_, ?_, h3, ?_⟩
        · dsimp only [schedule]
          rw [countP_pushEv]
          simpa [isTick] using h1
        · dsimp only [schedule]
          intro f hf htick
          rcases mem_pushEv.mp hf with rfl | hf
          · simp [isTick] at htick
          · exact h2 f (by rw [hev]; exact List.mem_cons_of_mem _ hf) htick
        · simpa [auditTimes] using h4
      · refine ⟨m, by simpa using h1, ?_, h3, ?_⟩
        · intro f hf htick
          exact h2 f (by rw [hev]; exact List.mem_cons_of_mem _ hf) htick
        · simpa [auditTimes] using h4
  | resumePatient pat arr =>
      simp only [isTick] at h1
      simp at h1
      dsimp only [stepEv]
      split <;>
      · refine ⟨m, ?_, ?_, h3, ?_⟩
        · dsimp only [schedule]
          rw [countP_pushEv]
          simpa [isTick] using h1
        · dsimp only [schedule]
          intro f hf htick
          rcases mem_pushEv.mp hf with rfl | hf
          · simp [isTick] at htick
          · exact h2 f (by rw [hev]; exact List.mem_cons_of_mem _ hf) htick
        · simpa [auditTimes] using h4
  | endService =>
      simp only [isTick] at h1
      simp at h1
      dsimp only [stepEv]
      split
      · refine ⟨m, by simpa using h1, ?_, h3, ?_⟩
        · intro f hf htick
          exact h2 f (by rw [hev]; exact List.mem_cons_of_mem _ hf) htick
        · simpa [auditTimes] using h4
      · refine ⟨m, ?_, ?_, h3, ?_⟩
        · dsimp only [schedule]
          rw [countP_pushEv]
          simpa [isTick] using h1
        · dsimp only [schedule]
          intro f hf htick
          rcases mem_pushEv.mp hf with rfl | hf
          · simp [isTick] at htick
          · exact h2 f (by rw [hev]; exact List.mem_cons_of_mem _ hf) htick
        · simpa [auditTimes] using h4
  | auditTick =>
      have htm : t = (m : ℚ) * p.audit_interval :=
        h2 ⟨t, pr, sq, Proc.auditTick⟩ (by rw [hev]; exact List.mem_cons_self _ _) rfl
      simp only [isTick] at h1
      simp at h1
      have hrest0 : rest.countP isTick = 0 := by
        refine List.countP_eq_zero.mpr ?_
        intro a ha
        simp [h1 a ha]
      have hnone : ∀ f ∈ rest, ¬ isTick f = true := by
        intro f hf
        simp [h1 f hf]
      have hnext : t + p.audit_interval = ((m + 1 : ℕ) : ℚ) * p.audit_interval := by
        rw [htm]
        push_cast
        ring
      have hstep4 : tickTimes p (m + 1) =
          tickTimes p m ++ [(m : ℚ) * p.audit_interval] := by
        simp [tickTimes, List.range_succ]
      dsimp only [stepEv]
      split
      · rename_i hw
        refine ⟨m + 1, ?_, ?_, ?_, ?_⟩
        · dsimp only [schedule]
          rw [countP_pushEv]
          simp [isTick, hrest0]
        · dsimp only [schedule]
          intro f hf htick
          rcases mem_pushEv.mp hf with rfl | hf
          · exact hnext
          · exact absurd htick (hnone f hf)
        · intro k hk
          rcases Nat.lt_succ_iff_lt_or_eq.mp hk with hk | rfl
          · exact h3 k hk
          · exact htm ▸ ht
        · dsimp only [schedule, auditTimes]
          simp only [auditTimes] at h4
          rw [List.map_append, h4, hstep4, List.filter_append]
          have hdec : decide (p.warm_up_period ≤ (m : ℚ) * p.audit_interval) = true :=
            decide_eq_true (htm ▸ hw)
          simp [hdec, htm]
      · rename_i hw
        refine ⟨m + 1, ?_, ?_, ?_, ?_⟩
        · dsimp only [schedule]
          rw [countP_pushEv]
          simp [isTick, hrest0]
        · dsimp only [schedule]
          intro f hf htick
          rcases mem_pushEv.mp hf with rfl | hf
          · exact hnext
          · exact absurd htick (hnone f hf)
        · intro k hk
          rcases Nat.lt_succ_iff_lt_or_eq.mp hk with hk | rfl
          · exact h3 k hk
          · exact htm ▸ ht
        · dsimp only [schedule, auditTimes]
          simp only [auditTimes] at h4
          rw [h4, hstep4, List.filter_append]
          have hdec : decide (p.warm_up_period ≤ (m : ℚ) * p.audit_interval) = false :=
            decide_eq_false (htm ▸ hw)
          simp [hdec]

/- ### Recording invariant (results and nurse time) -/

/-- Recording invariant: the patient-level results are exactly the rows of
the service starts at or after warm-up end, the accumulated nurse time is
the corresponding clamped sum, and every service start happened strictly
before the horizon. -/
def RecInv (p : Defaults) (st : SimState) : Prop :=
  st.results_list = recsOfServed p st.servedLog ∧
  st.nurse_time_used = specNurseTime p st.servedLog ∧
  ∀ en ∈ st.servedLog, en.start < horizon p

theorem initState_RecInv (p : Defaults) : RecInv p (initState p) := by
  refine ⟨?_, ?_, ?_⟩ <;> simp [initState, recsOfServed, specNurseTime, RecInv]

theorem stepEv_preserves_RecInv (p : Defaults) (aSeq svSeq : ℕ → ℚ)
    (st : SimState) (e : Ev) (rest : List Ev)
    (hev : st.events = e :: rest) (ht : e.time < horizon p)
    (hP : RecInv p st) :
    RecInv p (stepEv p aSeq svSeq { st with events := rest } e) := by
  obtain ⟨hres, htime, hstart⟩ := hP
  obtain ⟨t, pr, sq, proc⟩ := e
  cases proc with
  | genArrival => exact ⟨hres, htime, hstart⟩
  | startPatient pat =>
      dsimp only [stepEv]
      split <;> exact ⟨hres, htime, hstart⟩
  | resumePatient pat arr =>
      dsimp only [stepEv]
      split
      · rename_i hw
        refine ⟨?_, ?_, ?_⟩
        · dsimp only [schedule]
          rw [hres]
          simp [recsOfServed, servedRecorded, List.filter_append, hw]
        · dsimp only [schedule]
          rw [htime]
          simp [specNurseTime, servedRecorded, List.filter_append, hw]
        · dsimp only [schedule]
          intro en hen
          rcases List.mem_append.mp hen with hen | hen
          · exact hstart en hen
          · rcases List.mem_singleton.mp hen with rfl
            exact ht
      · rename_i hw
        refine ⟨?_, ?_, ?_⟩
        · dsimp only [schedule]
          rw [hres]
          simp [recsOfServed, servedRecorded, List.filter_append, hw]
        · dsimp only [schedule]
          rw [htime]
          simp [specNurseTime, servedRecorded, List.filter_append, hw]
        · dsimp only [schedule]
          intro en hen
          rcases List.mem_append.mp hen with hen | hen
          · exact hstart en hen
          · rcases List.mem_singleton.mp hen with rfl
            exact ht
  | endService =>
      dsimp only [stepEv]
      split <;> exact ⟨hres, htime, hstart⟩
  | auditTick =>
      dsimp only [stepEv]
      split <;> exact ⟨hres, htime, hstart⟩

/- ### Transport of the invariants to completed runs -/

theorem modelRun_RecInv (p : Defaults) (aSeq svSeq : ℕ → ℚ) (fuel : ℕ)
    (st' : SimState) (h : modelRun p aSeq svSeq fuel = some st') :
    RecInv p st' :=
  simLoop_induction p aSeq svSeq (RecInv p)
    (fun st e rest hev ht hP => stepEv_preserves_RecInv p aSeq svSeq st e rest hev ht hP)
    fuel (initState p) st' h (initState_RecInv p)

theorem modelRun_ResInv (p : Defaults) (aSeq svSeq : ℕ → ℚ) (fuel : ℕ)
    (st' : SimState) (h : modelRun p aSeq svSeq fuel = some st') :
    ResInv p st' :=
  simLoop_induction p aSeq svSeq (ResInv p)
    (fun st e rest hev _ht hP => stepEv_preserves_ResInv p aSeq svSeq st e rest hev hP)
    fuel (initState p) st' h (initState_ResInv p)

theorem modelRun_TickInv (p : Defaults) (aSeq svSeq : ℕ → ℚ) (fuel : ℕ)
    (st' : SimState) (h : modelRun p aSeq svSeq fuel = some st') :
    ∃ m, TickInv p m st' :=
  simLoop_induction p aSeq svSeq (fun st => ∃ m, TickInv p m st)
    (fun st e rest hev ht hP => stepEv_preserves_TickInv p aSeq svSeq st e rest hev ht hP)
    fuel (initState p) st' h (initState_TickInv p)

theorem modelRun_timeSorted (p : Defaults) (aSeq svSeq : ℕ → ℚ) (fuel : ℕ)
    (st' : SimState) (h : modelRun p aSeq svSeq fuel = some st') :
    timeSorted st'.events := by
  refine simLoop_induction p aSeq svSeq (fun st => timeSorted st.events)
    (fun st e rest hev _ht hP => stepEv_preserves_timeSorted p aSeq svSeq st e rest hev hP)
    fuel (initState p) st' h ?_
  simp [initState, timeSorted]

theorem mem_tickTimes {p : Defaults} {m : ℕ} {tm : ℚ} :
    tm ∈ tickTimes p m ↔ ∃ k, k < m ∧ tm = (k : ℚ) * p.audit_interval := by
  simp only [tickTimes, List.mem_map, List.mem_range]
  constructor
  · rintro ⟨k, hk, rfl⟩
    exact ⟨k, hk, rfl⟩
  · rintro ⟨k, hk, rfl⟩
    exact ⟨k, hk, rfl⟩

theorem head_eq_of_min {l : List ℚ} {w : ℚ} (hs : l.Pairwise (· ≤ ·))
    (hw : w ∈ l) (hmin : ∀ x ∈ l, w ≤ x) : l.head? = some w := by
  cases l with
  | nil => simp at hw
  | cons x xs =>
      have hxw : w ≤ x := hmin x (List.mem_cons_self _ _)
      rcases List.mem_cons.mp hw with rfl | hw
      · rfl
      · have hwx : x ≤ w := (List.pairwise_cons.mp hs).1 w hw
        show some x = some w
        rw [le_antisymm hwx hxw]

/- ### The claims -/

/-- Claim C1: false on the code — `Trial.run_single` never executes a
replication with the trial's stored parameters and always raises.  Line
184 of src/model.py reads `my_model = Model(run_number=run)`, omitting
the required positional argument `param` of `Model.__init__`, so every
call raises `TypeError` before any replication is run, for every trial,
every replication index and every draw sequence. -/
theorem run_single_always_raises_type_error (t : Trial) (aSeq svSeq : ℕ → ℚ)
    (fuel run : ℕ) :
    t.run_single aSeq svSeq fuel run = Except.error PyErr.typeError :=
  rfl

/-- Claim C2: false on the code — in the saturation scenario (one nurse,
arrivals at 0, 1, 2, consultations of 20, horizon 3) patient 2 arrives at
time 1 and is still queued at run end, yet the patient-level results hold
a row only for patient 1: a never-served patient has no row at all
(rather than a row with unset queue-wait and service-duration). -/
theorem unserved_patient_has_no_row :
    ∃ st : SimState, modelRun pSat oneSeq oneSeq 60 = some st ∧
      (2, (1 : ℚ)) ∈ st.arrivalsLog ∧
      st.results_list.map (fun r => r.patient_id) = [1] :=
  ⟨(modelRun pSat oneSeq oneSeq 60).getD (initState pSat), by with_unfolding_all decide⟩

/-- Claim C3, counterexample: with warm-up 5, patient 2 arrives at time 1
— during warm-up — queues behind patient 1, starts service at time 6 and
is recorded in the patient-level results, so inclusion is not decided by
the warm-up period having elapsed at the moment of arrival. -/
theorem warmup_arrival_recorded_counterexample :
    ∃ st : SimState, modelRun pWarm oneSeq oneSeq 150 = some st ∧
      (2, (1 : ℚ)) ∈ st.arrivalsLog ∧
      (1 : ℚ) < pWarm.warm_up_period ∧
      2 ∈ st.results_list.map (fun r => r.patient_id) :=
  ⟨(modelRun pWarm oneSeq oneSeq 150).getD (initState pWarm), by with_unfolding_all decide⟩

/-- Claim C3 (amended): inclusion in the reported statistics is decided
by the warm-up period having elapsed at the moment the patient starts
service (`self.env.now >= warm_up_period` is evaluated after the nurse is
granted, src/model.py line 109): the patient-level results are exactly
one row per service start at or after warm-up end, with the queue time
and sampled consultation time of that start — a patient arriving during
warm-up is recorded whenever its service starts after warm-up end, and
every recorded service start lies strictly before the run horizon. -/
theorem recording_gated_at_service_start (p : Defaults) (aSeq svSeq : ℕ → ℚ)
    (fuel : ℕ) (st' : SimState) (h : modelRun p aSeq svSeq fuel = some st') :
    st'.results_list = recsOfServed p st'.servedLog ∧
    ∀ en ∈ st'.servedLog, en.start < horizon p :=
  ⟨(modelRun_RecInv p aSeq svSeq fuel st' h).1,
   (modelRun_RecInv p aSeq svSeq fuel st' h).2.2⟩

/-- Witness for the amended claim C3, at the warm-up scenario. -/
theorem recording_gated_at_service_start_witness :
    ((modelRun pWarm oneSeq oneSeq 150).getD (initState pWarm)).results_list =
      recsOfServed pWarm
        ((modelRun pWarm oneSeq oneSeq 150).getD (initState pWarm)).servedLog :=
  (recording_gated_at_service_start pWarm oneSeq oneSeq 150 _
    (by with_unfolding_all rfl)).1

/-- Claim C4, counterexample: with warm-up 3, audit interval 2 and
data-collection duration 10 (all satisfying the claim's hypotheses), the
first recorded interval-audit row has simulation time 4 — the first
multiple of the audit interval at or after warm-up end — not 3. -/
theorem first_audit_row_shifted_counterexample :
    ∃ st : SimState, modelRun pAudit oneSeq oneSeq 60 = some st ∧
      0 < pAudit.warm_up_period ∧ 0 < pAudit.sim_duration ∧
      0 < pAudit.audit_interval ∧
      (auditTimes st).head? = some 4 ∧
      pAudit.warm_up_period = 3 ∧ (4 : ℚ) ≠ (3 : ℚ) :=
  ⟨(modelRun pAudit oneSeq oneSeq 60).getD (initState pAudit), by with_unfolding_all decide⟩

/-- Claim C4 (amended): the auditor ticks at the multiples of the audit
interval starting from 0; ticks strictly before warm-up end produce no
row, and the recorded audit times are exactly the multiples of the
interval inside the window from warm-up end (inclusive) to the run
horizon (exclusive).  Consequently the first recorded row sits at the
smallest such multiple — equal to the warm-up duration exactly when the
warm-up duration is a multiple of the audit interval (the boundary tick
is then not skipped or shifted), and strictly later otherwise. -/
theorem first_audit_time_characterisation (p : Defaults) (aSeq svSeq : ℕ → ℚ)
    (fuel : ℕ) (st' : SimState) (hI : 0 < p.audit_interval)
    (h : modelRun p aSeq svSeq fuel = some st') :
    (∀ tm : ℚ, tm ∈ auditTimes st' ↔
      ∃ k : ℕ, tm = (k : ℚ) * p.audit_interval ∧
        p.warm_up_period ≤ tm ∧ tm < horizon p) ∧
    ((∃ k : ℕ, (k : ℚ) * p.audit_interval = p.warm_up_period) →
      p.warm_up_period < horizon p →
      (auditTimes st').head? = some p.warm_up_period) := by
  obtain ⟨m, hc, htimes, hlt, hchar⟩ := modelRun_TickInv p aSeq svSeq fuel st' h
  have hsorted := modelRun_timeSorted p aSeq svSeq fuel st' h
  have hshape := simLoop_stop_shape p aSeq svSeq fuel (initState p) st' h
  have hall := events_ge_horizon_of_final p hsorted hshape
  have hpos : 0 < st'.events.countP isTick := by omega
  obtain ⟨f, hf, hfT⟩ := List.countP_pos_iff.mp hpos
  have hmH : horizon p ≤ (m : ℚ) * p.audit_interval := by
    rw [← htimes f hf hfT]
    exact hall f hf
  have hiff : ∀ tm : ℚ, tm ∈ auditTimes st' ↔
      ∃ k : ℕ, tm = (k : ℚ) * p.audit_interval ∧
        p.warm_up_period ≤ tm ∧ tm < horizon p := by
    intro tm
    rw [hchar]
    constructor
    · intro hmem
      obtain ⟨hmem', hdec⟩ := List.mem_filter.mp hmem
      obtain ⟨k, hk, rfl⟩ := mem_tickTimes.mp hmem'
      exact ⟨k, rfl, of_decide_eq_true hdec, hlt k hk⟩
    · rintro ⟨k, rfl, hge, hlt'⟩
      refine List.mem_filter.mpr ⟨mem_tickTimes.mpr ⟨k, ?_, rfl⟩, decide_eq_true hge⟩
      by_contra hk
      push_neg at hk
      have hmk : (m : ℚ) * p.audit_interval ≤ (k : ℚ) * p.audit_interval :=
        mul_le_mul_of_nonneg_right (by exact_mod_cast hk) hI.le
      exact absurd hlt' (not_lt.mpr (hmH.trans hmk))
  refine ⟨hiff, ?_⟩
  rintro ⟨k, hk⟩ hWH
  have hWmem : p.warm_up_period ∈ auditTimes st' :=
    (hiff _).mpr ⟨k, hk.symm, le_refl _, hWH⟩
  have hmin : ∀ x ∈ auditTimes st', p.warm_up_period ≤ x := by
    intro x hx
    obtain ⟨k', rfl, hge, _⟩ := (hiff x).mp hx
    exact hge
  have hsorted' : (auditTimes st').Pairwise (· ≤ ·) := by
    rw [hchar]
    apply List.Pairwise.filter
    simp only [tickTimes]
    refine List.Pairwise.map _ ?_ (List.pairwise_lt_range m)
    intro a b hab
    exact mul_le_mul_of_nonneg_right (by exact_mod_cast hab.le) hI.le
  exact head_eq_of_min hsorted' hWmem hmin

/-- Witness for the amended claim C4: warm-up 4 is a multiple of the
audit interval 2 and lies below the horizon 10, so the first recorded
audit row sits exactly at the warm-up boundary. -/
theorem first_audit_time_characterisation_witness :
    (auditTimes
      ((modelRun pAuditMul oneSeq oneSeq 60).getD (initState pAuditMul))).head? =
      some pAuditMul.warm_up_period := by
  have h := first_audit_time_characterisation pAuditMul oneSeq oneSeq 60
    ((modelRun pAuditMul oneSeq oneSeq 60).getD (initState pAuditMul))
    (by with_unfolding_all decide) (by with_unfolding_all rfl)
  exact h.2 ⟨2, by with_unfolding_all decide⟩ (by with_unfolding_all decide)

/-- Claim C5: false on the code — neither the `Defaults` dataclass nor
`Model.__init__` validates any parameter, and `Defaults` accepts brand
new attribute names silently.  Constructing a model with a zero
inter-arrival mean and a negative warm-up succeeds, and binding
`new_entry` on the configuration succeeds instead of raising. -/
theorem no_validation_and_silent_new_attribute :
    modelCall (some { patient_inter := 0, warm_up_period := -1 }) 0 =
      Except.ok ⟨{ patient_inter := 0, warm_up_period := -1 }, 0⟩ ∧
    setattrNew ⟨{}, []⟩ "new_entry" 3 = Except.ok ⟨{}, [("new_entry", 3)]⟩ :=
  ⟨rfl, rfl⟩

/-- Claim C6 (modelled from the spec, as `MonitoredResource` is not under
src/): in the tail-flush scenario — capacity 1, tasks A, B, C queueing at
0, A serving 0-5, B serving 5-15, C never served, run cut at 12 — after
`flush_tail(12)` the busy-time integral is exactly 12 and the queue-time
integral exactly 17. -/
theorem monitored_resource_tail_flush :
    tailFlushScenario.area_busy = 12 ∧ tailFlushScenario.area_queue = 17 := by
  constructor <;> with_unfolding_all rfl

/-- Claim C7: the nurse busy time accumulated over a completed run is
exactly the sum, over recorded patients, of the sampled consultation time
clamped to the remaining run time at service start
(`min(sampled, warm_up_period + sim_duration - now)`, src/model.py lines
116-121); meanwhile the release of the nurse is always scheduled a full
sampled consultation after service start, clamped or not. -/
theorem nurse_time_used_clamped_sum (p : Defaults) (aSeq svSeq : ℕ → ℚ)
    (fuel : ℕ) (st' : SimState) (h : modelRun p aSeq svSeq fuel = some st') :
    st'.nurse_time_used = specNurseTime p st'.servedLog ∧
    ∀ (st : SimState) (pat : Patient) (arr tm : ℚ) (pr sq : ℕ),
      (⟨tm + p.mean_n_consult_time * svSeq st.srvIdx, 1, st.seq,
        Proc.endService⟩ : Ev) ∈
        (stepEv p aSeq svSeq st ⟨tm, pr, sq, Proc.resumePatient pat arr⟩).events := by
  refine ⟨(modelRun_RecInv p aSeq svSeq fuel st' h).2.1, ?_⟩
  intro st pat arr tm pr sq
  dsimp only [stepEv]
  split <;>
  · dsimp only [schedule]
    exact mem_pushEv.mpr (Or.inl rfl)

/-- Witness for claim C7, at the saturation scenario. -/
theorem nurse_time_used_clamped_sum_witness :
    ((modelRun pSat oneSeq oneSeq 60).getD (initState pSat)).nurse_time_used =
      specNurseTime pSat
        ((modelRun pSat oneSeq oneSeq 60).getD (initState pSat)).servedLog :=
  (nurse_time_used_clamped_sum pSat oneSeq oneSeq 60 _
    (by with_unfolding_all rfl)).1

/-- Claim C8: a replication is a pure function of its configuration and
replication index — the two streams are seeded from
`SeedSequence(entropy=run_number).spawn(2)` alone — so two executions of
the same replication, whatever ambient entropy the system would offer,
produce identical patient-level results. -/
theorem replication_results_deterministic (rng : ℕ → ℕ → ℚ)
    (spawnSeeds : ℕ → ℕ × ℕ) (p : Defaults) (run_number fuel : ℕ)
    (ambient1 ambient2 : ℕ) :
    (modelOfRun rng spawnSeeds p run_number ambient1 fuel).map
        (fun st => st.results_list) =
      (modelOfRun rng spawnSeeds p run_number ambient2 fuel).map
        (fun st => st.results_list) :=
  rfl

/-- Claim C9: the interval auditor never records a row at or past the run
horizon (`sim_duration + warm_up_period`): the stop event of
`env.run(until=...)` precedes any tick scheduled there. -/
theorem audit_rows_stop_before_horizon (p : Defaults) (aSeq svSeq : ℕ → ℚ)
    (fuel : ℕ) (st' : SimState) (h : modelRun p aSeq svSeq fuel = some st') :
    ∀ r ∈ st'.utilisation_audit, r.simulation_time < horizon p := by
  refine simLoop_induction p aSeq svSeq
    (fun st => ∀ r ∈ st.utilisation_audit, r.simulation_time < horizon p)
    ?_ fuel (initState p) st' h (by simp [initState])
  intro st e rest hev ht hP
  obtain ⟨t, pr, sq, proc⟩ := e
  cases proc with
  | genArrival => exact hP
  | startPatient pat =>
      dsimp only [stepEv]
      split <;> exact hP
  | resumePatient pat arr =>
      dsimp only [stepEv]
      split <;> exact hP
  | endService =>
      dsimp only [stepEv]
      split <;> exact hP
  | auditTick =>
      dsimp only [stepEv]
      split
      · dsimp only [schedule]
        intro r hr
        rcases List.mem_append.mp hr with hr | hr
        · exact hP r hr
        · rcases List.mem_singleton.mp hr with rfl
          exact ht
      · exact hP

/-- Witness for claim C9: the first audit row of the multiple-of-interval
scenario lies strictly before the horizon. -/
theorem audit_rows_stop_before_horizon_witness :
    (((modelRun pAuditMul oneSeq oneSeq 60).getD
        (initState pAuditMul)).utilisation_audit.headD
      dummyAudit).simulation_time < horizon pAuditMul := by
  refine audit_rows_stop_before_horizon pAuditMul oneSeq oneSeq 60
    ((modelRun pAuditMul oneSeq oneSeq 60).getD (initState pAuditMul))
    (by with_unfolding_all rfl) _ ?_
  with_unfolding_all decide

/-- Claim C10: every recorded interval-audit row has its in-use count
bounded by the recorded capacity, an instantaneous utilisation
(`number_utilised / number_available`, the `perc_utilisation` of
src/model.py lines 205-208) between 0 and 1, and a non-negative queue
length — for every configuration, draw sequence and completed run. -/
theorem audit_utilisation_within_bounds (p : Defaults) (aSeq svSeq : ℕ → ℚ)
    (fuel : ℕ) (st' : SimState) (h : modelRun p aSeq svSeq fuel = some st') :
    ∀ r ∈ st'.utilisation_audit,
      r.number_utilised ≤ r.number_available ∧
      0 ≤ (r.number_utilised : ℚ) / (r.number_available : ℚ) ∧
      (r.number_utilised : ℚ) / (r.number_available : ℚ) ≤ 1 ∧
      0 ≤ r.queue_length := by
  have hres := modelRun_ResInv p aSeq svSeq fuel st' h
  intro r hr
  obtain ⟨hle, hcap⟩ := hres.2.2 r hr
  refine ⟨hle, div_nonneg (Nat.cast_nonneg _) (Nat.cast_nonneg _), ?_, Nat.zero_le _⟩
  rcases Nat.eq_zero_or_pos r.number_available with h0 | hpos
  · have h0' : r.number_utilised = 0 := by omega
    simp [h0, h0']
  · rw [div_le_one (by exact_mod_cast hpos)]
    exact_mod_cast hle

/-- Witness for claim C10: the first audit row of the saturation
scenario has utilisation within bounds. -/
theorem audit_utilisation_within_bounds_witness :
    ((((modelRun pSat oneSeq oneSeq 60).getD
        (initState pSat)).utilisation_audit.headD dummyAudit).number_utilised : ℚ) /
      ((((modelRun pSat oneSeq oneSeq 60).getD
        (initState pSat)).utilisation_audit.headD dummyAudit).number_available : ℚ) ≤ 1 := by
  refine (audit_utilisation_within_bounds pSat oneSeq oneSeq 60
    ((modelRun pSat oneSeq oneSeq 60).getD (initState pSat))
    (by with_unfolding_all rfl) _ ?_).2.2.1
  with_unfolding_all decide

end ClinicSim
